import Mathlib

/-!
Verification of the pipeline-orchestration core of the avatar-video
presentation system against its specification.

The development shallowly embeds the orchestration logic of the backend
services (retry/backoff engine, optimistic-concurrency state store and the
racing slide handlers, the fan-in barrier, the progress broadcaster, the
lock-renewal loop, and the concatenator's blob selection) as executable Lean
definitions, and settles the spec claims about them.
-/

/-! ## Retry and backoff engine (video_generator.py)

`VideoGeneratorService.__init__` fixes `max_retries = 5`, `base_delay = 1.0`,
`max_delay = 300.0`, `jitter_range = 0.1`.  Delays are modelled over `ℚ`
(the Python code uses floats; the claims are about which terms enter the
formula, not about rounding).  The value `r : ℚ` models `random.random()`,
a number in `[0, 1]`.
-/

def base_delay : ℚ := 1

def max_delay : ℚ := 300

def jitter_range : ℚ := 1 / 10

def gen_max_retries : ℕ := 5

/-- Embedding of `VideoGeneratorService._calculate_retry_delay`.
`retry_after` is the parsed Retry-After header (`None` when absent); Python's
`if retry_after:` is falsy both for `None` and for `0`, which the match
reproduces.  The hint, when truthy, replaces the exponential term; the code
then applies `min(_, max_delay)`, adds `base * jitter_range * (2*random()-1)`,
and floors the result at `0.1`. -/
def calculate_retry_delay (attempt : ℕ) (retry_after : Option ℕ) (r : ℚ) : ℚ :=
  let b0 : ℚ :=
    match retry_after with
    | some ra => if 0 < ra then (ra : ℚ) else base_delay * 2 ^ attempt
    | none => base_delay * 2 ^ attempt
  let b := min b0 max_delay
  let jitter := b * jitter_range * (2 * r - 1)
  max (b + jitter) (1 / 10)

/-- Embedding of `VideoGeneratorService._is_retryable_error`. -/
def is_retryable_error (status_code : ℕ) : Bool :=
  status_code == 429 || status_code == 500 || status_code == 502 ||
    status_code == 503 || status_code == 504

/-- Embedding of the retry loop of `VideoGeneratorService.submit_synthesis_job`.
`statuses a` is the HTTP status returned by the `a`-th PUT attempt.  The code
treats `status < 400` as success, retries the listed retryable statuses with
backoff while attempts remain, and returns failure immediately on any other
status.  The result is the returned boolean together with the number of HTTP
attempts actually performed. -/
def submit_loop (statuses : ℕ → ℕ) : ℕ → ℕ → Bool × ℕ
  | 0, _ => (false, 0)
  | fuel + 1, attempt =>
    let s := statuses attempt
    if s < 400 then (true, 1)
    else if is_retryable_error s then
      if fuel = 0 then (false, 1)
      else
        let rest := submit_loop statuses fuel (attempt + 1)
        (rest.1, rest.2 + 1)
    else (false, 1)

/-- Entry point matching `submit_synthesis_job`: `for attempt in range(5)`. -/
def submit_synthesis_job (statuses : ℕ → ℕ) : Bool × ℕ :=
  submit_loop statuses gen_max_retries 0

/-- Delay with the jitter term ignored: `random() = 1/2` makes the
perturbation `base * 0.1 * (2*r - 1)` vanish. -/
def delay_no_jitter (attempt : ℕ) : ℚ :=
  calculate_retry_delay attempt none (1 / 2)

/-! ### Claims C5, C6, C7 -/

/-- Claim C5, counterexample.  The claim states that a server-supplied
Retry-After hint is waited verbatim, with neither the `max_delay` cap nor the
jitter applied.  With hint `400` and zero jitter (`r = 1/2`) the computed
delay is `300`, not `400` (the cap was applied), and with full positive
jitter (`r = 1`) it is `330` (the jitter was applied on top of the capped
hint).  In no case does the delay equal the hint. -/
theorem C5_counterexample :
    calculate_retry_delay 0 (some 400) (1 / 2) = 300 ∧
    calculate_retry_delay 0 (some 400) 1 = 330 ∧
    (300 : ℚ) ≠ 400 ∧ (330 : ℚ) ≠ 400 := by
  refine ⟨?_, ?_, by norm_num, by norm_num⟩ <;>
    simp [calculate_retry_delay, max_delay, jitter_range] <;> norm_num

/-- Claim C5, amended.  When a positive Retry-After hint is present it
replaces only the exponential term `base * 2^attempt`; the `max_delay` cap,
the jitter perturbation and the `0.1` floor are still applied to it. -/
theorem C5_amended (attempt h : ℕ) (r : ℚ) (hp : 0 < h) :
    calculate_retry_delay attempt (some h) r =
      max (min (h : ℚ) max_delay + min (h : ℚ) max_delay * jitter_range * (2 * r - 1))
        (1 / 10) := by
  simp [calculate_retry_delay, hp]

/-- Witness for C5_amended at attempt 3, hint 400, r = 1. -/
theorem C5_amended_witness :
    calculate_retry_delay 3 (some 400) 1 =
      max (min (400 : ℚ) max_delay + min (400 : ℚ) max_delay * jitter_range * (2 * 1 - 1))
        (1 / 10) :=
  C5_amended 3 400 1 (by norm_num)

/-- Claim C6, confirmed.  In the absence of a hint and ignoring jitter, the
delay for attempt `k` equals `min(base * 2^k, max_delay)`; it is
non-decreasing in `k` and never exceeds `max_delay = 300` seconds. -/
theorem C6_backoff (k : ℕ) :
    delay_no_jitter k = min (base_delay * 2 ^ k) max_delay ∧
    delay_no_jitter k ≤ delay_no_jitter (k + 1) ∧
    delay_no_jitter k ≤ max_delay := by
  have hval : ∀ m : ℕ, delay_no_jitter m = min (base_delay * 2 ^ m) max_delay := by
    intro m
    have h1 : (1 : ℚ) ≤ 2 ^ m := one_le_pow₀ (by norm_num)
    have hmin : (1 : ℚ) ≤ min (base_delay * 2 ^ m) max_delay := by
      rw [le_min_iff]
      constructor
      · simpa [base_delay] using h1
      · norm_num [max_delay]
    simp only [delay_no_jitter, calculate_retry_delay]
    rw [show (2 * (1 / 2 : ℚ) - 1) = 0 by norm_num]
    rw [mul_zero, add_zero]
    exact max_eq_left (le_trans (by norm_num) hmin)
  refine ⟨hval k, ?_, ?_⟩
  · rw [hval k, hval (k + 1)]
    refine min_le_min ?_ le_rfl
    have : (2 : ℚ) ^ k ≤ 2 ^ (k + 1) :=
      pow_le_pow_right₀ (by norm_num) (Nat.le_succ k)
    simpa [base_delay] using this
  · rw [hval k]
    exact min_le_right _ _

/-- Claim C7, counterexample.  The claim states every non-2xx status outside
{429, 500, 502, 503, 504} is terminal and aborts the submission.  Status 302
is non-2xx and not retryable, yet the code (`if response.status < 400`)
treats it as a successful submission: the call returns success after one
attempt instead of aborting with a failure. -/
theorem C7_counterexample :
    ¬ (200 ≤ 302 ∧ 302 < 300) ∧
    is_retryable_error 302 = false ∧
    submit_synthesis_job (fun _ => 302) = (true, 1) := by
  refine ⟨by omega, rfl, rfl⟩

/-- Helper: a retryable status code is at least 400. -/
theorem retryable_ge_400 {s : ℕ} (h : is_retryable_error s = true) : 400 ≤ s := by
  simp only [is_retryable_error, Bool.or_eq_true, beq_iff_eq] at h
  rcases h with ((((h | h) | h) | h) | h) <;> omega

/-- Helper: the loop returns `(false, n)` when every response is retryable. -/
theorem submit_loop_all_retryable (statuses : ℕ → ℕ) :
    ∀ n a, 1 ≤ n → (∀ i, i < n → is_retryable_error (statuses (a + i)) = true) →
      submit_loop statuses n a = (false, n) := by
  intro n
  induction n with
  | zero => intro a h; omega
  | succ m ih =>
    intro a _ hall
    have h0 : is_retryable_error (statuses a) = true := by
      simpa using hall 0 (Nat.succ_pos m)
    have hge : 400 ≤ statuses a := retryable_ge_400 h0
    by_cases hm : m = 0
    · subst hm
      simp [submit_loop, h0, Nat.not_lt.mpr hge]
    · have hrest : submit_loop statuses m (a + 1) = (false, m) := by
        refine ih (a + 1) (Nat.one_le_iff_ne_zero.mpr hm) ?_
        intro i hi
        have := hall (i + 1) (by omega)
        simpa [Nat.add_assoc, Nat.add_comm 1 i] using this
      simp [submit_loop, h0, Nat.not_lt.mpr hge, hm, hrest]

/-- Claim C7, amended.  In `submit_synthesis_job`, any status below 400 on
the first attempt is treated as success (one attempt); any status at least
400 outside the retryable set {429, 500, 502, 503, 504} aborts immediately
with failure after one attempt; and when every attempt hits a retryable
status the call is retried with backoff and fails after exactly
`gen_max_retries = 5` attempts. -/
theorem C7_amended (statuses : ℕ → ℕ) :
    (statuses 0 < 400 → submit_synthesis_job statuses = (true, 1)) ∧
    (400 ≤ statuses 0 → is_retryable_error (statuses 0) = false →
      submit_synthesis_job statuses = (false, 1)) ∧
    ((∀ a, a < gen_max_retries → is_retryable_error (statuses a) = true) →
      submit_synthesis_job statuses = (false, gen_max_retries)) := by
  refine ⟨?_, ?_, ?_⟩
  · intro h
    simp [submit_synthesis_job, gen_max_retries, submit_loop, h]
  · intro hge hnr
    simp [submit_synthesis_job, gen_max_retries, submit_loop, Nat.not_lt.mpr hge, hnr]
  · intro hall
    have := submit_loop_all_retryable statuses gen_max_retries 0 (by norm_num [gen_max_retries])
      (fun i hi => by simpa using hall i hi)
    simpa [submit_synthesis_job] using this

/-- Witness for C7_amended: a 201 response succeeds in one attempt, a 404
aborts in one attempt, constant 429 responses exhaust all five attempts. -/
theorem C7_amended_witness :
    submit_synthesis_job (fun _ => 201) = (true, 1) ∧
    submit_synthesis_job (fun _ => 404) = (false, 1) ∧
    submit_synthesis_job (fun _ => 429) = (false, gen_max_retries) :=
  ⟨(C7_amended (fun _ => 201)).1 (by norm_num),
   (C7_amended (fun _ => 404)).2.1 (by norm_num) rfl,
   (C7_amended (fun _ => 429)).2.2 (fun a _ => rfl)⟩

/-! ## Video concatenator blob selection (video_concatenator.py)

`VideoConcatenator._get_video_files_list` lists blobs under the prefix
`{ppt_id}/videos/{video_id}/`, keeps names ending in `.mp4` other than
`final.mp4` whose part before the first dot parses as a Python `int`, and
sorts them by that number with Python's stable `list.sort`.  Strings are
modelled as `List Char`; `os.path.basename` splits on `/`,
`filename.split('.')[0]` takes the segment before the first dot.  Python's
`int()` is modelled for an optional sign followed by decimal digits
(underscore grouping, surrounding whitespace and non-ASCII digits that
`int()` would also accept are not modelled; they never arise here).
-/

def split_on_char (c : Char) : List Char → List (List Char)
  | [] => [[]]
  | x :: xs =>
    match split_on_char c xs with
    | [] => [[]]
    | seg :: rest => if x = c then [] :: seg :: rest else (x :: seg) :: rest

/-- Embedding of `os.path.basename` for POSIX paths. -/
def cc_basename (l : List Char) : List Char :=
  (split_on_char '/' l).getLastD l

/-- Embedding of `filename.split('.')[0]`. -/
def first_dot_segment (l : List Char) : List Char :=
  (split_on_char '.' l).headD l

/-- Value of a non-empty all-digit character list. -/
def digits_value : List Char → Option ℕ
  | [] => none
  | cs =>
    if cs.all (fun c => c.isDigit) then
      some (cs.foldl (fun acc c => acc * 10 + (c.toNat - 48)) 0)
    else none

/-- Embedding of Python `int(s)` on sign-and-digits strings. -/
def parse_py_int : List Char → Option ℤ
  | [] => none
  | '-' :: rest => (digits_value rest).map (fun n => -(n : ℤ))
  | '+' :: rest => (digits_value rest).map (fun n => (n : ℤ))
  | cs => (digits_value cs).map (fun n => (n : ℤ))

def mp4_ext : List Char := ['.', 'm', 'p', '4']

def final_name : List Char := ['f', 'i', 'n', 'a', 'l'] ++ mp4_ext

/-- Key computed by the code for a candidate base name: the listing keeps
names ending in `.mp4` other than `final.mp4`, keyed by
`int(filename.split('.')[0])`; a `ValueError` (parse failure) skips the
file. -/
def select_key (fn : List Char) : Option ℤ :=
  if mp4_ext.isSuffixOf fn ∧ fn ≠ final_name then
    parse_py_int (first_dot_segment fn)
  else none

/-- Stable insertion used to model Python's stable `list.sort(key=...)`:
an element is inserted after all earlier elements with a key not above
its own. -/
def insert_by_key (x : ℤ × List Char) : List (ℤ × List Char) → List (ℤ × List Char)
  | [] => [x]
  | y :: ys => if x.1 < y.1 then x :: y :: ys else y :: insert_by_key x ys

def sort_by_key (l : List (ℤ × List Char)) : List (ℤ × List Char) :=
  l.foldl (fun acc x => insert_by_key x acc) []

/-- The prefix `f"{ppt_id}/videos/{video_id}/"`. -/
def videos_pfx (ppt_id video_id : List Char) : List Char :=
  ppt_id ++ ['/', 'v', 'i', 'd', 'e', 'o', 's', '/'] ++ video_id ++ ['/']

/-- The keyed selection built by the listing loop of
`_get_video_files_list`: blobs under the prefix whose base name passes
`select_key`, paired with their numeric key, in listing order. -/
def keyed_selection (pfx : List Char) (blobs : List (List Char)) :
    List (ℤ × List Char) :=
  (blobs.filter (fun b => pfx.isPrefixOf b)).filterMap
    (fun b => (select_key (cc_basename b)).map (fun n => (n, b)))

/-- Embedding of `VideoConcatenator._get_video_files_list`: the selected
blob names sorted by numeric key.  `blobs` is the container listing. -/
def get_video_files_list (ppt_id video_id : List Char)
    (blobs : List (List Char)) : List (List Char) :=
  (sort_by_key (keyed_selection (videos_pfx ppt_id video_id) blobs)).map Prod.snd

/-- Selection as worded by the claim: the base name is an integer followed
by `.mp4` (the whole name before the extension parses as an integer), with
`final.mp4` excluded. -/
def claim_key (fn : List Char) : Option ℤ :=
  if mp4_ext.isSuffixOf fn ∧ fn ≠ final_name then
    parse_py_int (fn.take (fn.length - 4))
  else none

/-- The claim-side file list, for comparison with `get_video_files_list`. -/
def claim_files_list (ppt_id video_id : List Char)
    (blobs : List (List Char)) : List (List Char) :=
  ((blobs.filter (fun b => (videos_pfx ppt_id video_id).isPrefixOf b)).filterMap
    (fun b => (claim_key (cc_basename b)).map (fun n => (n, b)))
    |> sort_by_key).map Prod.snd

def c10_blob : List Char :=
  ['p', '/', 'v', 'i', 'd', 'e', 'o', 's', '/', 'v', '/',
   '1', '.', 'e', 'x', 't', 'r', 'a', '.', 'm', 'p', '4']

/-- Claim C10, counterexample.  The blob `p/videos/v/1.extra.mp4` has a base
name that is not an integer followed by `.mp4`, so the claim says it is
excluded; but `int(filename.split('.')[0])` parses its first segment `1`,
so the code selects it for concatenation. -/
theorem C10_counterexample :
    get_video_files_list ['p'] ['v'] [c10_blob] = [c10_blob] ∧
    claim_files_list ['p'] ['v'] [c10_blob] = [] := by
  constructor <;> rfl

/-- Helper: stable insertion produces a permutation of consing. -/
theorem insert_by_key_perm (x : ℤ × List Char) :
    ∀ l : List (ℤ × List Char), (insert_by_key x l).Perm (x :: l) := by
  intro l
  induction l with
  | nil => simp [insert_by_key]
  | cons y ys ih =>
    by_cases h : x.1 < y.1
    · simp [insert_by_key, h]
    · simp only [insert_by_key, if_neg h]
      exact (ih.cons y).trans (List.Perm.swap x y ys)

/-- Helper: membership is preserved by stable insertion. -/
theorem mem_insert_by_key {z x : ℤ × List Char} {l : List (ℤ × List Char)} :
    z ∈ insert_by_key x l ↔ z = x ∨ z ∈ l := by
  rw [(insert_by_key_perm x l).mem_iff]
  simp

/-- Helper: the sort is a permutation of its input. -/
theorem sort_by_key_perm (l : List (ℤ × List Char)) :
    (sort_by_key l).Perm l := by
  have aux : ∀ (m acc : List (ℤ × List Char)),
      (m.foldl (fun acc x => insert_by_key x acc) acc).Perm (acc ++ m) := by
    intro m
    induction m with
    | nil => intro acc; simp
    | cons x xs ih =>
      intro acc
      rw [List.foldl_cons]
      have h1 := ih (insert_by_key x acc)
      have h2 : (insert_by_key x acc ++ xs).Perm ((x :: acc) ++ xs) :=
        (insert_by_key_perm x acc).append_right xs
      have h3 : ((x :: acc) ++ xs).Perm (acc ++ x :: xs) := List.perm_middle.symm
      exact (h1.trans h2).trans h3
  simpa using aux l []

/-- Helper: stable insertion preserves sortedness by key. -/
theorem insert_by_key_sorted {x : ℤ × List Char} {l : List (ℤ × List Char)}
    (h : l.Pairwise (fun a b => a.1 ≤ b.1)) :
    (insert_by_key x l).Pairwise (fun a b => a.1 ≤ b.1) := by
  induction l with
  | nil => simp [insert_by_key]
  | cons y ys ih =>
    rcases List.pairwise_cons.mp h with ⟨hy, hys⟩
    by_cases hlt : x.1 < y.1
    · rw [insert_by_key, if_pos hlt]
      refine List.pairwise_cons.mpr ⟨?_, h⟩
      intro z hz
      rcases List.mem_cons.mp hz with hz | hz
      · exact hz ▸ le_of_lt hlt
      · exact le_trans (le_of_lt hlt) (hy z hz)
    · rw [insert_by_key, if_neg hlt]
      refine List.pairwise_cons.mpr ⟨?_, ih hys⟩
      intro z hz
      rcases mem_insert_by_key.mp hz with hz | hz
      · exact hz ▸ le_of_not_lt hlt
      · exact hy z hz

/-- Helper: the result of the sort is sorted by key. -/
theorem sort_by_key_sorted (l : List (ℤ × List Char)) :
    (sort_by_key l).Pairwise (fun a b => a.1 ≤ b.1) := by
  have aux : ∀ (m acc : List (ℤ × List Char)),
      acc.Pairwise (fun a b => a.1 ≤ b.1) →
      (m.foldl (fun acc x => insert_by_key x acc) acc).Pairwise
        (fun a b => a.1 ≤ b.1) := by
    intro m
    induction m with
    | nil => intro acc h; simpa using h
    | cons x xs ih =>
      intro acc h
      exact ih (insert_by_key x acc) (insert_by_key_sorted h)
  exact aux l [] (by simp)

/-- Claim C10, amended.  `_get_video_files_list` selects exactly the blobs
under the prefix whose base name ends in `.mp4`, is not `final.mp4`, and
whose segment before the first dot parses as an integer (so for instance a
name with extra dots, like `1.extra.mp4`, is also selected); it returns them
ordered by non-decreasing parsed key, ties kept in listing order, and when
the parsed keys are pairwise distinct — as they are for clips named
`{index}.mp4` by the transformation stage — the order is strictly ascending
in the numeric index, regardless of listing order. -/
theorem C10_amended (ppt_id video_id : List Char) (blobs : List (List Char)) :
    get_video_files_list ppt_id video_id blobs =
      (sort_by_key (keyed_selection (videos_pfx ppt_id video_id) blobs)).map Prod.snd ∧
    (sort_by_key (keyed_selection (videos_pfx ppt_id video_id) blobs)).Perm
      (keyed_selection (videos_pfx ppt_id video_id) blobs) ∧
    (∀ n b, (n, b) ∈ keyed_selection (videos_pfx ppt_id video_id) blobs ↔
      b ∈ blobs ∧ (videos_pfx ppt_id video_id).isPrefixOf b = true ∧
        select_key (cc_basename b) = some n) ∧
    (sort_by_key (keyed_selection (videos_pfx ppt_id video_id) blobs)).Pairwise
      (fun a b => a.1 ≤ b.1) ∧
    (((keyed_selection (videos_pfx ppt_id video_id) blobs).map Prod.fst).Nodup →
      (sort_by_key (keyed_selection (videos_pfx ppt_id video_id) blobs)).Pairwise
        (fun a b => a.1 < b.1)) := by
  refine ⟨rfl, sort_by_key_perm _, ?_, sort_by_key_sorted _, ?_⟩
  · intro n b
    simp only [keyed_selection, List.mem_filterMap, List.mem_filter,
      Option.map_eq_some', Prod.mk.injEq]
    constructor
    · rintro ⟨a, ⟨ha, hpfx⟩, k, hk, rfl, rfl⟩
      exact ⟨ha, hpfx, hk⟩
    · rintro ⟨hb, hpfx, hk⟩
      exact ⟨b, ⟨hb, hpfx⟩, n, hk, rfl, rfl⟩
  · intro hnodup
    have hperm := sort_by_key_perm (keyed_selection (videos_pfx ppt_id video_id) blobs)
    have hnd : ((sort_by_key (keyed_selection (videos_pfx ppt_id video_id) blobs)).map
        Prod.fst).Nodup := ((hperm.map Prod.fst).nodup_iff).mpr hnodup
    have hne : (sort_by_key (keyed_selection (videos_pfx ppt_id video_id) blobs)).Pairwise
        (fun a b => a.1 ≠ b.1) := List.pairwise_map.mp hnd
    have hle := sort_by_key_sorted (keyed_selection (videos_pfx ppt_id video_id) blobs)
    exact (hle.and hne).imp (fun h => lt_of_le_of_ne h.1 h.2)

/-- Witness for C10_amended on a concrete out-of-order listing with distinct
keys: clips listed as 2, 0, 10 come back in ascending numeric order. -/
theorem C10_amended_witness :
    (((keyed_selection (videos_pfx ['p'] ['v'])
        [['p', '/', 'v', 'i', 'd', 'e', 'o', 's', '/', 'v', '/', '2', '.', 'm', 'p', '4'],
         ['p', '/', 'v', 'i', 'd', 'e', 'o', 's', '/', 'v', '/', '0', '.', 'm', 'p', '4'],
         ['p', '/', 'v', 'i', 'd', 'e', 'o', 's', '/', 'v', '/', '1', '0', '.', 'm', 'p', '4']]).map
      Prod.fst).Nodup) ∧
    (sort_by_key (keyed_selection (videos_pfx ['p'] ['v'])
        [['p', '/', 'v', 'i', 'd', 'e', 'o', 's', '/', 'v', '/', '2', '.', 'm', 'p', '4'],
         ['p', '/', 'v', 'i', 'd', 'e', 'o', 's', '/', 'v', '/', '0', '.', 'm', 'p', '4'],
         ['p', '/', 'v', 'i', 'd', 'e', 'o', 's', '/', 'v', '/', '1', '0', '.', 'm', 'p', '4']])).Pairwise
      (fun a b => a.1 < b.1) := by
  refine ⟨by decide, (C10_amended ['p'] ['v'] _).2.2.2.2 (by decide)⟩

/-! ## State store and racing slide handlers
(cosmos_db.py, video_transformation.py, video_generator.py)

The shared PowerPoint document is reduced to the fields the fan-in logic
touches: one video job with `completed_slides`, `total_slides` and per-slide
status triples.  The store pairs the document with a version number modelling
the Cosmos ETag, which changes on every replace.

Two kinds of replace exist in the code:
* `CosmosDBService.update_slide_video_status` reads the record (binding the
  ETag but not using it) and calls `update_powerpoint_record` without an
  ETag — an unconditional replace of the whole document;
* `VideoTransformation._update_completed_slides` reads the record with its
  ETag and calls `update_powerpoint_record(record, etag)` — a replace
  conditioned on the ETag, rejected with a 412 on mismatch.

A transformation handler that succeeds performs, in order
(`handle_message`): `_update_status(PROCESSING)` — two unconditional
read-modify-replace pairs (transformation_status, then status) —, the
external work (no store access), `_update_status(COMPLETED)` — two more
unconditional pairs —, then `_update_completed_slides` — an ETag-guarded
read-increment-replace loop with at most 5 attempts that emits the
concatenation message exactly when the successfully written counter equals
`total_slides`, and exits silently when the attempts are exhausted.
A permanently failed slide (generator `_handle_processing_failure` after
`max_message_retries`) performs `_update_status(FAILED)` — two unconditional
pairs — and never touches the counter.

Each read and each replace is one atomic step; a schedule interleaves the
steps of the concurrent handlers arbitrarily.
-/

inductive PStatus
  | pending
  | processing
  | completed
  | failed
deriving DecidableEq

structure Slide where
  generation_status : PStatus
  transformation_status : PStatus
  status : PStatus
deriving DecidableEq

structure PRecord where
  completed_slides : ℕ
  total_slides : ℕ
  slides : List Slide
deriving DecidableEq

structure Store where
  doc : PRecord
  ver : ℕ
deriving DecidableEq

inductive SField
  | generation
  | transformation
  | overall
deriving DecidableEq

def set_at (g : Slide → Slide) : List Slide → ℕ → List Slide
  | [], _ => []
  | x :: xs, 0 => g x :: xs
  | x :: xs, n + 1 => x :: set_at g xs n

/-- The slide-status mutation performed by `update_slide_video_status`. -/
def set_slide_status (r : PRecord) (i : ℕ) (f : SField) (st : PStatus) : PRecord :=
  { r with
    slides := set_at (fun s =>
      match f with
      | .generation => { s with generation_status := st }
      | .transformation => { s with transformation_status := st }
      | .overall => { s with status := st }) r.slides i }

/-- One document replace: whether it presented the ETag, the stored document
it overwrote, and the document written. -/
structure WriteEvent where
  guarded : Bool
  before : PRecord
  after : PRecord
deriving DecidableEq

inductive Role
  | success (slide : ℕ)
  | permFail (slide : ℕ)
deriving DecidableEq

def is_success_role : Role → Bool
  | .success _ => true
  | .permFail _ => false

/-- Local state of one message handler: program counter, the last read
(document, ETag) pair, the conflict retry counter of
`_update_completed_slides`, whether it emitted the concatenation message,
whether its guarded increment committed, and whether it finished. -/
structure HState where
  pc : ℕ
  snap : Option (PRecord × ℕ)
  retry_count : ℕ
  sent : Bool
  committed : Bool
  hdone : Bool
deriving DecidableEq

def initH : HState := ⟨0, none, 0, false, false, false⟩

def cosmos_max_retries : ℕ := 5

/-- An atomic read: `get_powerpoint_record` returns the document with its
ETag. -/
def read_step (h : HState) (store : Store) :
    HState × Store × ℕ × Option WriteEvent :=
  ({ h with pc := h.pc + 1, snap := some (store.doc, store.ver) }, store, 0, none)

/-- An unconditional replace by `update_slide_video_status`: the snapshot
read in the preceding step, with one slide-status field changed, overwrites
the stored document whatever its current version. -/
def blind_step (i : ℕ) (f : SField) (st : PStatus) (h : HState) (store : Store) :
    HState × Store × ℕ × Option WriteEvent :=
  match h.snap with
  | none => ({ h with hdone := true }, store, 0, none)
  | some (d, _) =>
    let d2 := set_slide_status d i f st
    ({ h with pc := h.pc + 1, snap := none },
      ⟨d2, store.ver + 1⟩, 0, some ⟨false, store.doc, d2⟩)

/-- One atomic step of a handler against the store: returns the new handler
state, the new store, the number of concatenation messages emitted (0 or 1)
and the replace performed, if any. -/
def hstep (role : Role) (h : HState) (store : Store) :
    HState × Store × ℕ × Option WriteEvent :=
  match role with
  | .success i =>
    match h.pc with
    | 0 => read_step h store
    | 1 => blind_step i .transformation .processing h store
    | 2 => read_step h store
    | 3 => blind_step i .overall .processing h store
    | 4 => read_step h store
    | 5 => blind_step i .transformation .completed h store
    | 6 => read_step h store
    | 7 => blind_step i .overall .completed h store
    | 8 => read_step h store
    | 9 =>
      match h.snap with
      | none => ({ h with hdone := true }, store, 0, none)
      | some (d, etag) =>
        let d2 := { d with completed_slides := d.completed_slides + 1 }
        if etag = store.ver then
          let hit := d2.completed_slides == d2.total_slides
          ({ h with pc := 10, snap := none, sent := hit, committed := true, hdone := true },
            ⟨d2, store.ver + 1⟩, cond hit 1 0, some ⟨true, store.doc, d2⟩)
        else
          if h.retry_count + 1 < cosmos_max_retries then
            ({ h with pc := 8, snap := none, retry_count := h.retry_count + 1 },
              store, 0, none)
          else
            let h2 := { h with pc := 10, snap := none, retry_count := h.retry_count + 1, hdone := true }
            (h2, store, 0, none)
    | _ => ({ h with hdone := true }, store, 0, none)
  | .permFail i =>
    match h.pc with
    | 0 => read_step h store
    | 1 => blind_step i .generation .failed h store
    | 2 => read_step h store
    | 3 =>
      let r := blind_step i .overall .failed h store
      ({ r.1 with hdone := true }, r.2.1, r.2.2.1, r.2.2.2)
    | _ => ({ h with hdone := true }, store, 0, none)

structure Sys where
  store : Store
  hs : List (Role × HState)
  sends : ℕ
  events : List WriteEvent
deriving DecidableEq

/-- Scheduling handler `k` for one atomic step. -/
def sys_step (s : Sys) (k : ℕ) : Sys :=
  match s.hs.get? k with
  | none => s
  | some (role, h) =>
    if h.hdone then s
    else
      let r := hstep role h s.store
      { store := r.2.1,
        hs := s.hs.set k (role, r.1),
        sends := s.sends + r.2.2.1,
        events := s.events ++ r.2.2.2.toList }

def run_sys (s : Sys) (sched : List ℕ) : Sys :=
  sched.foldl sys_step s

def init_slide : Slide := ⟨.pending, .pending, .pending⟩

/-- Initial system: counter 0, fresh version, all slide statuses pending,
one handler per role, no message sent. -/
def init_sys (roles : List Role) (total n : ℕ) : Sys :=
  ⟨⟨⟨0, total, List.replicate n init_slide⟩, 0⟩,
    roles.map (fun r => (r, initH)), 0, []⟩

/-! ### Claim C1 -/

/-- The interleaving: handler 0 (slide 0) runs through its four status
writes, handler 1 (slide 1) runs through its first three status writes and
the read for its fourth, handler 0 performs its guarded increment (0 to 1),
handler 1 performs its fourth status write from the stale snapshot (resetting
the counter to 0), then handler 1 performs its guarded increment (0 to 1). -/
def c1_sched : List ℕ :=
  List.replicate 8 0 ++ List.replicate 7 1 ++ [0, 0] ++ [1, 1, 1]

def c1_final : Sys := run_sys (init_sys [.success 0, .success 1] 2 2) c1_sched

/-- Claim C1, violated by the code.  Both transformation handlers of a
2-slide video run to completion with no failure and no redelivery, yet zero
VideoConcatenationRequested messages are ever sent: the final unconditional
status write of handler 1 (`update_slide_video_status` discards the ETag it
read) overwrites the committed counter increment of handler 0, so the counter
ends at 1 of 2 and the barrier never fires.  Nothing will increment the
counter again, so no interleaving extension emits the message either. -/
theorem C1_zero_messages :
    c1_final.sends = 0 ∧
    c1_final.hs.all (fun rh => rh.2.hdone) = true ∧
    c1_final.hs.all (fun rh => rh.2.committed) = true ∧
    c1_final.store.doc.completed_slides = 1 ∧
    c1_final.store.doc.total_slides = 2 ∧
    c1_final.store.doc.slides.all
      (fun s => s.transformation_status == .completed && s.status == .completed) = true := by
  refine ⟨?_, ?_, ?_, ?_, ?_, ?_⟩ <;> decide

/-! ### Claim C2 -/

/-- One successful transformation handler for a 1-slide video, run serially
with no interference. -/
def serial_one : Sys := run_sys (init_sys [.success 0] 1 1) (List.replicate 10 0)

/-- A replace that flips some slide's transformation status to Completed. -/
def marks_transf_completed (e : WriteEvent) : Prop :=
  ∃ p ∈ e.before.slides.zip e.after.slides,
    p.1.transformation_status ≠ PStatus.completed ∧
    p.2.transformation_status = PStatus.completed

/-- A replace that increments the video's completed-slides counter. -/
def increments_counter (e : WriteEvent) : Prop :=
  e.after.completed_slides = e.before.completed_slides + 1

instance (e : WriteEvent) : Decidable (marks_transf_completed e) :=
  List.decidableBEx _ _

instance (e : WriteEvent) : Decidable (increments_counter e) :=
  instDecidableEqNat _ _

/-- Claim C2, counterexample.  Even in a serial, conflict-free run of a
single successful handler the document is replaced five times, and the
replace that marks the slide's transformation Completed is an unconditional
one (no ETag presented) that leaves `completed_slides` untouched: marking
Completed and incrementing the counter are not one and the same token-guarded
write. -/
theorem C2_counterexample :
    serial_one.events.length = 5 ∧
    serial_one.sends = 1 ∧
    ¬ (∀ e ∈ serial_one.events, marks_transf_completed e →
        e.guarded = true ∧ increments_counter e) := by
  refine ⟨by decide, by decide, by decide⟩

/-- A replace event that emits the concatenation message: an ETag-guarded
write whose written document has the counter equal to the slide total. -/
def send_event (e : WriteEvent) : Bool :=
  e.guarded && (e.after.completed_slides == e.after.total_slides)

/-- Helper: each atomic handler step emits exactly as many messages as it
produces send events. -/
theorem hstep_send_count (role : Role) (h : HState) (store : Store) :
    (hstep role h store).2.2.1 =
      ((hstep role h store).2.2.2.toList).countP send_event := by
  rcases h with ⟨pc, snap, rc, sent, cmt, dn⟩
  rcases role with i | i <;>
    rcases pc with _ | _ | _ | _ | _ | _ | _ | _ | _ | _ | pc <;>
    rcases snap with _ | ⟨d, etag⟩ <;>
      simp [hstep, read_step, blind_step, send_event]
  by_cases hv : etag = store.ver
  · simp only [if_pos hv]
    cases hhit : d.completed_slides + 1 == d.total_slides <;>
      simp [List.countP_cons, send_event, hhit]
  · simp only [if_neg hv]
    split <;> simp

/-- Helper: one scheduled step preserves the correspondence between the
message count and the send events in the write log. -/
theorem sys_step_sends_eq (s : Sys) (k : ℕ)
    (h : s.sends = s.events.countP send_event) :
    (sys_step s k).sends = (sys_step s k).events.countP send_event := by
  unfold sys_step
  cases hget : s.hs.get? k with
  | none => simpa using h
  | some rh =>
    obtain ⟨role, hh⟩ := rh
    by_cases hd : hh.hdone
    · simpa [hd] using h
    · simp only [hd, Bool.false_eq_true, if_false]
      rw [List.countP_append, ← hstep_send_count, h]

/-- Helper: the correspondence holds after any schedule. -/
theorem run_sys_sends_eq (sched : List ℕ) (s : Sys)
    (h : s.sends = s.events.countP send_event) :
    (run_sys s sched).sends = (run_sys s sched).events.countP send_event := by
  induction sched generalizing s with
  | nil => simpa [run_sys] using h
  | cons k ks ih => exact ih (sys_step s k) (sys_step_sends_eq s k h)

/-- Claim C2, amended.  Marking a slide's transformation Completed and
incrementing `completed_slides` happen in separate replaces — the status
replaces present no ETag, only the increment is ETag-guarded — and, over
every interleaving of any set of handlers, the concatenation-message count
equals the number of ETag-guarded replaces that committed a document whose
counter equals the slide total: only a writer whose guarded write succeeds
with `completed_slides = total_slides` emits the message. -/
theorem C2_amended (roles : List Role) (total n : ℕ) (sched : List ℕ) :
    (run_sys (init_sys roles total n) sched).sends =
      ((run_sys (init_sys roles total n) sched).events).countP send_event ∧
    serial_one.events.countP (fun e => decide (marks_transf_completed e)) = 1 ∧
    serial_one.events.countP
      (fun e => decide (marks_transf_completed e) && e.guarded) = 0 ∧
    serial_one.events.countP send_event = 1 := by
  refine ⟨run_sys_sends_eq sched _ rfl, by decide, by decide, by decide⟩

/-! ### Claim C3 -/

/-- Helper: generic membership from an indexed lookup. -/
theorem mem_of_get_some {α : Type} :
    ∀ (l : List α) (k : ℕ) (a : α), l.get? k = some a → a ∈ l := by
  intro l
  induction l with
  | nil => intro k a h; simp at h
  | cons x xs ih =>
    intro k a h
    cases k with
    | zero =>
      simp only [List.get?] at h
      injection h with h
      exact h ▸ List.mem_cons_self x xs
    | succ k2 => exact List.mem_cons_of_mem x (ih k2 a (by simpa using h))

/-- Helper: how `countP` changes when one position is replaced. -/
theorem countP_set_eq {α : Type} (P : α → Bool) :
    ∀ (l : List α) (k : ℕ) (a b : α), l.get? k = some a →
      (l.set k b).countP P + (if P a then 1 else 0) =
        l.countP P + (if P b then 1 else 0) := by
  intro l
  induction l with
  | nil => intro k a b h; simp at h
  | cons x xs ih =>
    intro k a b h
    cases k with
    | zero =>
      simp only [List.get?] at h
      injection h with h
      rw [h]
      simp only [List.set, List.countP_cons]
      cases hPa : P a <;> cases hPb : P b <;> simp [hPa, hPb]
    | succ k2 =>
      have hx := ih k2 a b (by simpa using h)
      simp only [List.set, List.countP_cons]
      cases hPx : P x <;> simp [hPx] <;> omega

/-- Helper: strict `countP` comparison when some position satisfies the
larger predicate but not the smaller one. -/
theorem countP_lt_of_get {α : Type} (P Q : α → Bool) :
    ∀ (l : List α) (k : ℕ) (a : α), l.get? k = some a →
      (∀ x ∈ l, P x = true → Q x = true) →
      P a = false → Q a = true →
      l.countP P < l.countP Q := by
  intro l
  induction l with
  | nil => intro k a h; simp at h
  | cons x xs ih =>
    intro k a h himp hPa hQa
    cases k with
    | zero =>
      simp only [List.get?] at h
      injection h with h
      have hle : xs.countP P ≤ xs.countP Q :=
        List.countP_mono_left (fun y hy => himp y (List.mem_cons_of_mem _ hy))
      rw [h]
      simp only [List.countP_cons, hPa, hQa]
      simp
      omega
    | succ k2 =>
      have hlt := ih k2 a (by simpa using h)
        (fun y hy => himp y (List.mem_cons_of_mem _ hy)) hPa hQa
      simp only [List.countP_cons]
      cases hPx : P x
      · simp
        omega
      · have hQx := himp x (List.mem_cons_self x xs) hPx
        simp [hQx]
        omega

def commits (s : Sys) : ℕ := s.hs.countP (fun rh => rh.2.committed)

def nsucc (s : Sys) : ℕ := s.hs.countP (fun rh => is_success_role rh.1)

def num_success (roles : List Role) : ℕ := roles.countP is_success_role

/-- The system invariant: the stored counter and every counter value held in
a handler snapshot are bounded by the number of committed guarded
increments; every stored or snapshotted document carries the fixed slide
total `T`; a committed handler is finished; and only successful
transformation handlers commit. -/
def InvT (T : ℕ) (s : Sys) : Prop :=
  s.store.doc.completed_slides ≤ commits s ∧
  s.store.doc.total_slides = T ∧
  (∀ rh ∈ s.hs, ∀ d et, rh.2.snap = some (d, et) →
      d.completed_slides ≤ commits s ∧ d.total_slides = T) ∧
  (∀ rh ∈ s.hs, rh.2.committed = true → rh.2.hdone = true) ∧
  (∀ rh ∈ s.hs, rh.2.committed = true → is_success_role rh.1 = true)

/-- Helper: exhaustive shape analysis of one handler step of an uncommitted
handler: it is a read or bookkeeping step (store untouched, nothing sent), an
unconditional status replace of a stale snapshot (counter copied from the
snapshot, nothing sent), or the ETag-guarded commit of the increment, which
sends exactly when the written counter equals the written total. -/
theorem hstep_shape (role : Role) (h : HState) (store : Store)
    (hcf : h.committed = false) :
    ((hstep role h store).1.committed = false ∧
      (hstep role h store).2.1 = store ∧
      (hstep role h store).2.2.1 = 0 ∧
      ((hstep role h store).1.snap = none ∨
       (hstep role h store).1.snap = some (store.doc, store.ver) ∨
       (hstep role h store).1.snap = h.snap)) ∨
    (∃ d et i f st, h.snap = some (d, et) ∧
      (hstep role h store).1.committed = false ∧
      (hstep role h store).1.snap = none ∧
      (hstep role h store).2.1 = ⟨set_slide_status d i f st, store.ver + 1⟩ ∧
      (hstep role h store).2.2.1 = 0) ∨
    (∃ d et, h.snap = some (d, et) ∧
      is_success_role role = true ∧
      (hstep role h store).1.committed = true ∧
      (hstep role h store).1.hdone = true ∧
      (hstep role h store).1.snap = none ∧
      (hstep role h store).2.1 =
        ⟨{ d with completed_slides := d.completed_slides + 1 }, store.ver + 1⟩ ∧
      (hstep role h store).2.2.1 =
        cond (d.completed_slides + 1 == d.total_slides) 1 0) := by
  obtain ⟨pc, snap, rc, snt, cmt, dn⟩ := h
  simp only at hcf
  subst hcf
  rcases role with i | i <;>
    rcases pc with _ | _ | _ | _ | _ | _ | _ | _ | _ | _ | pc <;>
    rcases snap with _ | ⟨d, etag⟩ <;>
    first
      | exact Or.inl ⟨rfl, rfl, rfl, Or.inr (Or.inl rfl)⟩
      | exact Or.inl ⟨rfl, rfl, rfl, Or.inl rfl⟩
      | exact Or.inl ⟨rfl, rfl, rfl, Or.inr (Or.inr rfl)⟩
      | exact Or.inr (Or.inl
          ⟨d, etag, i, SField.transformation, PStatus.processing, rfl, rfl, rfl, rfl, rfl⟩)
      | exact Or.inr (Or.inl
          ⟨d, etag, i, SField.overall, PStatus.processing, rfl, rfl, rfl, rfl, rfl⟩)
      | exact Or.inr (Or.inl
          ⟨d, etag, i, SField.transformation, PStatus.completed, rfl, rfl, rfl, rfl, rfl⟩)
      | exact Or.inr (Or.inl
          ⟨d, etag, i, SField.overall, PStatus.completed, rfl, rfl, rfl, rfl, rfl⟩)
      | exact Or.inr (Or.inl
          ⟨d, etag, i, SField.generation, PStatus.failed, rfl, rfl, rfl, rfl, rfl⟩)
      | exact Or.inr (Or.inl
          ⟨d, etag, i, SField.overall, PStatus.failed, rfl, rfl, rfl, rfl, rfl⟩)
      | (by_cases hv : etag = store.ver
         · exact Or.inr (Or.inr ⟨d, etag, rfl, rfl,
             by simp [hstep, hv], by simp [hstep, hv], by simp [hstep, hv],
             by simp [hstep, hv], by simp [hstep, hv]⟩)
         · by_cases hrc : rc + 1 < cosmos_max_retries
           · exact Or.inl ⟨by simp [hstep, hv, hrc], by simp [hstep, hv, hrc],
               by simp [hstep, hv, hrc], Or.inl (by simp [hstep, hv, hrc])⟩
           · exact Or.inl ⟨by simp [hstep, hv, hrc], by simp [hstep, hv, hrc],
               by simp [hstep, hv, hrc], Or.inl (by simp [hstep, hv, hrc])⟩)

/-- Helper: replacing handler `k` by a non-committed state while writing a
document whose counter is bounded by the current commit count preserves the
invariant. -/
theorem invT_after_step (T : ℕ) (s : Sys) (k : ℕ) (role : Role) (h h2 : HState)
    (store2 : Store) (sd2 : ℕ) (ev2 : List WriteEvent)
    (hget : s.hs.get? k = some (role, h))
    (hinv : InvT T s)
    (hcf : h.committed = false) (hc2 : h2.committed = false)
    (hsnap2 : ∀ d et, h2.snap = some (d, et) →
        d.completed_slides ≤ commits s ∧ d.total_slides = T)
    (hdoc2 : store2.doc.completed_slides ≤ commits s ∧ store2.doc.total_slides = T) :
    InvT T ⟨store2, s.hs.set k (role, h2), sd2, ev2⟩ := by
  obtain ⟨hv1, hv2, hv3, hv4, hv5⟩ := hinv
  have hcom : commits ⟨store2, s.hs.set k (role, h2), sd2, ev2⟩ = commits s := by
    have hx := countP_set_eq (fun rh : Role × HState => rh.2.committed)
      s.hs k (role, h) (role, h2) hget
    simp only [hcf, hc2] at hx
    simpa [commits] using hx
  refine ⟨?_, hdoc2.2, ?_, ?_, ?_⟩
  · rw [hcom]; exact hdoc2.1
  · intro rh hrh d et hsnap
    rw [hcom]
    rcases List.mem_or_eq_of_mem_set hrh with hmem2 | heq
    · exact hv3 rh hmem2 d et hsnap
    · subst heq
      exact hsnap2 d et hsnap
  · intro rh hrh hc
    rcases List.mem_or_eq_of_mem_set hrh with hmem2 | heq
    · exact hv4 rh hmem2 hc
    · subst heq
      exact absurd hc (by simp [hc2])
  · intro rh hrh hc
    rcases List.mem_or_eq_of_mem_set hrh with hmem2 | heq
    · exact hv5 rh hmem2 hc
    · subst heq
      exact absurd hc (by simp [hc2])

/-- Helper: the ETag-guarded commit of one more increment preserves the
invariant: the commit count rises by one along with the written counter. -/
theorem invT_after_commit (T : ℕ) (s : Sys) (k : ℕ) (role : Role) (h h2 : HState)
    (store2 : Store) (sd2 : ℕ) (ev2 : List WriteEvent)
    (hget : s.hs.get? k = some (role, h))
    (hinv : InvT T s)
    (hcf : h.committed = false)
    (hc2 : h2.committed = true) (hd2 : h2.hdone = true) (hs2 : h2.snap = none)
    (hrole : is_success_role role = true)
    (hdoc2 : store2.doc.completed_slides ≤ commits s + 1 ∧ store2.doc.total_slides = T) :
    InvT T ⟨store2, s.hs.set k (role, h2), sd2, ev2⟩ := by
  obtain ⟨hv1, hv2, hv3, hv4, hv5⟩ := hinv
  have hcom : commits ⟨store2, s.hs.set k (role, h2), sd2, ev2⟩ = commits s + 1 := by
    have hx := countP_set_eq (fun rh : Role × HState => rh.2.committed)
      s.hs k (role, h) (role, h2) hget
    simp only [hcf, hc2] at hx
    simpa [commits] using hx
  refine ⟨?_, hdoc2.2, ?_, ?_, ?_⟩
  · rw [hcom]; exact hdoc2.1
  · intro rh hrh d et hsnap
    rw [hcom]
    rcases List.mem_or_eq_of_mem_set hrh with hmem2 | heq
    · have hx := hv3 rh hmem2 d et hsnap
      exact ⟨le_trans hx.1 (Nat.le_succ _), hx.2⟩
    · subst heq
      rw [hs2] at hsnap
      cases hsnap
  · intro rh hrh hc
    rcases List.mem_or_eq_of_mem_set hrh with hmem2 | heq
    · exact hv4 rh hmem2 hc
    · subst heq
      exact hd2
  · intro rh hrh hc
    rcases List.mem_or_eq_of_mem_set hrh with hmem2 | heq
    · exact hv5 rh hmem2 hc
    · subst heq
      exact hrole

/-- Helper: replacing one handler state never changes the number of
successful-transformation handlers. -/
theorem nsucc_set (s : Sys) (k : ℕ) (role : Role) (h h2 : HState)
    (st2 : Store) (sd2 : ℕ) (ev2 : List WriteEvent)
    (hget : s.hs.get? k = some (role, h)) :
    nsucc ⟨st2, s.hs.set k (role, h2), sd2, ev2⟩ = nsucc s := by
  have hx2 : (s.hs.set k (role, h2)).countP
        (fun rh : Role × HState => is_success_role rh.1) +
      (if is_success_role role = true then 1 else 0) =
      s.hs.countP (fun rh : Role × HState => is_success_role rh.1) +
      (if is_success_role role = true then 1 else 0) :=
    countP_set_eq (fun rh : Role × HState => is_success_role rh.1)
      s.hs k (role, h) (role, h2) hget
  simp only [nsucc]
  omega

/-- Helper: one scheduled step preserves the invariant, the success count,
and — while fewer handlers can succeed than the slide total — the message
count. -/
theorem sys_step_preserves (T : ℕ) (s : Sys) (k : ℕ) (hinv : InvT T s) :
    InvT T (sys_step s k) ∧ nsucc (sys_step s k) = nsucc s ∧
    (nsucc s < T → (sys_step s k).sends = s.sends) := by
  cases hget : s.hs.get? k with
  | none =>
    have hz : sys_step s k = s := by unfold sys_step; rw [hget]
    rw [hz]
    exact ⟨hinv, rfl, fun _ => rfl⟩
  | some rh =>
    obtain ⟨role, h⟩ := rh
    have hz : sys_step s k =
        if h.hdone = true then s
        else
          let r := hstep role h s.store
          { store := r.2.1, hs := s.hs.set k (role, r.1),
            sends := s.sends + r.2.2.1, events := s.events ++ r.2.2.2.toList } := by
      unfold sys_step
      rw [hget]
    rw [hz]
    by_cases hdn : h.hdone = true
    · rw [if_pos hdn]
      exact ⟨hinv, rfl, fun _ => rfl⟩
    · have hmem : (role, h) ∈ s.hs := mem_of_get_some s.hs k _ hget
      have hcf : h.committed = false := by
        cases hc : h.committed
        · rfl
        · exact absurd (hinv.2.2.2.1 (role, h) hmem hc) hdn
      rw [if_neg hdn]
      rcases hstep_shape role h s.store hcf with
        ⟨hcr, hst, hn0, hsnapc⟩ |
        ⟨d, et, i, f, st, hsn, hcr, hsnr, hst, hn0⟩ |
        ⟨d, et, hsn, hrole, hcr, hhd, hsnr, hst, hn0⟩
      · refine ⟨invT_after_step T s k role h _ _ _ _ hget hinv hcf hcr ?_ ?_,
          nsucc_set s k role h _ _ _ _ hget, ?_⟩
        · intro d2 et2 hs2
          rcases hsnapc with h0 | h0 | h0
          · rw [h0] at hs2; cases hs2
          · rw [h0] at hs2
            injection hs2 with hs2
            injection hs2 with hsa hsb
            rw [← hsa]
            exact ⟨hinv.1, hinv.2.1⟩
          · rw [h0] at hs2
            exact hinv.2.2.1 (role, h) hmem d2 et2 hs2
        · rw [hst]
          exact ⟨hinv.1, hinv.2.1⟩
        · intro _
          simp [hn0]
      · refine ⟨invT_after_step T s k role h _ _ _ _ hget hinv hcf hcr ?_ ?_,
          nsucc_set s k role h _ _ _ _ hget, ?_⟩
        · intro d2 et2 hs2
          rw [hsnr] at hs2; cases hs2
        · rw [hst]
          exact hinv.2.2.1 (role, h) hmem d et hsn
        · intro _
          simp [hn0]
      · refine ⟨invT_after_commit T s k role h _ _ _ _ hget hinv hcf hcr hhd hsnr hrole ?_,
          nsucc_set s k role h _ _ _ _ hget, ?_⟩
        · rw [hst]
          have hx := hinv.2.2.1 (role, h) hmem d et hsn
          exact ⟨Nat.succ_le_succ hx.1, hx.2⟩
        · intro hlt
          have hdb := hinv.2.2.1 (role, h) hmem d et hsn
          have hclt : commits s < nsucc s :=
            countP_lt_of_get (fun rh : Role × HState => rh.2.committed)
              (fun rh : Role × HState => is_success_role rh.1)
              s.hs k (role, h) hget
              (fun x hx hc => hinv.2.2.2.2 x hx hc) hcf hrole
          have hne : (d.completed_slides + 1 == d.total_slides) = false := by
            rw [beq_eq_false_iff_ne]
            omega
          simp [hn0, hne]

/-- Helper: the invariant, the success count and — below the barrier — the
message count are maintained along any schedule. -/
theorem run_sys_preserves (T : ℕ) (sched : List ℕ) :
    ∀ s : Sys, InvT T s →
      InvT T (run_sys s sched) ∧ nsucc (run_sys s sched) = nsucc s ∧
      (nsucc s < T → (run_sys s sched).sends = s.sends) := by
  induction sched with
  | nil => intro s h; exact ⟨h, rfl, fun _ => rfl⟩
  | cons k ks ih =>
    intro s h
    have h1 := sys_step_preserves T s k h
    have h2 := ih (sys_step s k) h1.1
    simp only [run_sys, List.foldl_cons] at h2 ⊢
    refine ⟨h2.1, h2.2.1.trans h1.2.1, ?_⟩
    intro hlt
    rw [h2.2.2 (by rw [h1.2.1]; exact hlt), h1.2.2 hlt]

/-- Helper: the initial system satisfies the invariant. -/
theorem invT_init (roles : List Role) (total n : ℕ) :
    InvT total (init_sys roles total n) := by
  refine ⟨Nat.zero_le _, rfl, ?_, ?_, ?_⟩
  · intro rh hrh d et hsnap
    obtain ⟨r0, hr0, rfl⟩ := List.mem_map.mp hrh
    simp [initH] at hsnap
  · intro rh hrh hc
    obtain ⟨r0, hr0, rfl⟩ := List.mem_map.mp hrh
    simp [initH] at hc
  · intro rh hrh hc
    obtain ⟨r0, hr0, rfl⟩ := List.mem_map.mp hrh
    simp [initH] at hc

/-- Helper: initially the success count equals the number of successful
roles. -/
theorem nsucc_init (roles : List Role) (total n : ℕ) :
    nsucc (init_sys roles total n) = num_success roles := by
  simp only [nsucc, init_sys, num_success, List.countP_map]
  rfl

/-- Claim C3, counterexample.  A 2-slide video in which slide 0's
transformation succeeds and slide 1 exhausts its message-level retries and is
permanently Failed: every handler finishes, `completed_slides` ends at 1 of
2, and no concatenation message is ever emitted — the fan-in comparison never
counts the failed slide, so the barrier is not reached and the pipeline
stalls, contrary to the claim. -/
theorem C3_counterexample :
    (run_sys (init_sys [.success 0, .permFail 1] 2 2)
        (List.replicate 10 0 ++ List.replicate 4 1)).sends = 0 ∧
    (run_sys (init_sys [.success 0, .permFail 1] 2 2)
        (List.replicate 10 0 ++ List.replicate 4 1)).hs.all
      (fun rh => rh.2.hdone) = true ∧
    (run_sys (init_sys [.success 0, .permFail 1] 2 2)
        (List.replicate 10 0 ++ List.replicate 4 1)).store.doc.completed_slides = 1 ∧
    ((run_sys (init_sys [.success 0, .permFail 1] 2 2)
        (List.replicate 10 0 ++ List.replicate 4 1)).store.doc.slides.map
      (fun sl => sl.generation_status)).get? 1 = some PStatus.failed := by
  refine ⟨?_, ?_, ?_, ?_⟩ <;> decide

/-- Claim C3, amended.  `completed_slides` is incremented only by handlers
whose transformation succeeds; a slide that exhausts its message-level
retries is marked Failed without any counter update, and the fan-in
comparison counts only the successful increments.  Consequently, over every
interleaving, a video whose successful slides number fewer than
`total_slides` (in particular one containing a permanently failed slide)
never emits the concatenation message, and the counter never exceeds the
number of successful handlers: the barrier is never reached and concatenation
is not triggered. -/
theorem C3_amended (roles : List Role) (total n : ℕ) (sched : List ℕ)
    (hlt : num_success roles < total) :
    (run_sys (init_sys roles total n) sched).sends = 0 ∧
    (run_sys (init_sys roles total n) sched).store.doc.completed_slides ≤
      num_success roles := by
  have hinv := invT_init roles total n
  have h := run_sys_preserves total sched _ hinv
  have hns := nsucc_init roles total n
  constructor
  · have hx := h.2.2 (by rw [hns]; exact hlt)
    simpa [init_sys] using hx
  · have h1 := h.1.1
    have hc : commits (run_sys (init_sys roles total n) sched) ≤
        nsucc (run_sys (init_sys roles total n) sched) :=
      List.countP_mono_left (fun rh hrh hcm => h.1.2.2.2.2 rh hrh hcm)
    have h2 := h.2.1
    rw [hns] at h2
    calc (run_sys (init_sys roles total n) sched).store.doc.completed_slides
        ≤ commits (run_sys (init_sys roles total n) sched) := h1
      _ ≤ nsucc (run_sys (init_sys roles total n) sched) := hc
      _ = num_success roles := h2

/-- Witness for C3_amended: one successful and one permanently failed slide
handler of a 2-slide video, interleaved step by step. -/
theorem C3_amended_witness :
    (run_sys (init_sys [Role.success 0, Role.permFail 1] 2 2)
        [0, 1, 0, 1, 0, 1, 0, 1, 0, 1, 0, 1, 0, 0, 0, 0]).sends = 0 ∧
    (run_sys (init_sys [Role.success 0, Role.permFail 1] 2 2)
        [0, 1, 0, 1, 0, 1, 0, 1, 0, 1, 0, 1, 0, 0, 0, 0]).store.doc.completed_slides ≤
      num_success [Role.success 0, Role.permFail 1] :=
  C3_amended [Role.success 0, Role.permFail 1] 2 2
    [0, 1, 0, 1, 0, 1, 0, 1, 0, 1, 0, 1, 0, 0, 0, 0] (by decide)

/-! ### Claim C4 -/

/-- Outcome of one attempt's conditional replace inside
`_update_completed_slides`: the write succeeds, is rejected with a
precondition failure (HTTP 412 / access condition, a stale ETag), or raises
some other error. -/
inductive WriteOutcome
  | ok
  | conflict
  | err
deriving DecidableEq

/-- Result of the whole operation as its caller observes it. -/
inductive LoopResult
  | sentMsg (written : ℕ)
  | returned (written : ℕ)
  | silentExhaust
  | raised
deriving DecidableEq

/-- Embedding of the `while retry_count < max_retries` loop of
`VideoTransformation._update_completed_slides` in isolation.  On attempt `i`
the fresh read returns a document whose counter is `reads i`; the write of
`reads i + 1` has outcome `oracle i`.  A conflict increments the retry
counter and loops; any other exception re-raises; a successful write sends
the concatenation message exactly when the written counter equals `total`
and then returns.  When the retry counter reaches the bound the loop simply
exits: the function returns `None` with no exception. -/
def uc_aux (total : ℕ) (reads : ℕ → ℕ) (oracle : ℕ → WriteOutcome) :
    ℕ → ℕ → LoopResult
  | 0, _ => .silentExhaust
  | fuel + 1, i =>
    match oracle i with
    | .conflict => uc_aux total reads oracle fuel (i + 1)
    | .err => .raised
    | .ok =>
      if reads i + 1 = total then .sentMsg (reads i + 1)
      else .returned (reads i + 1)

def update_completed_slides (total : ℕ) (reads : ℕ → ℕ)
    (oracle : ℕ → WriteOutcome) : LoopResult :=
  uc_aux total reads oracle cosmos_max_retries 0

/-- Claim C4, counterexample.  When all five attempts are rejected for a
stale ETag, the loop exits and the operation returns normally — result
`silentExhaust`, not an exception: exhaustion is not surfaced to the caller
and the increment is silently lost. -/
theorem C4_counterexample :
    update_completed_slides 2 (fun _ => 0) (fun _ => .conflict) =
      LoopResult.silentExhaust ∧
    LoopResult.silentExhaust ≠ LoopResult.raised := by
  exact ⟨rfl, by decide⟩

/-- Helper: a run of conflicting attempts only advances the loop. -/
theorem uc_aux_skip (total : ℕ) (reads : ℕ → ℕ) (oracle : ℕ → WriteOutcome) :
    ∀ (m fuel i : ℕ), m ≤ fuel →
      (∀ j, j < m → oracle (i + j) = .conflict) →
      uc_aux total reads oracle fuel i = uc_aux total reads oracle (fuel - m) (i + m) := by
  intro m
  induction m with
  | zero => intro fuel i _ _; simp
  | succ p ih =>
    intro fuel i hm hconf
    cases fuel with
    | zero => omega
    | succ f =>
      have h0 : oracle i = .conflict := by simpa using hconf 0 (Nat.succ_pos p)
      have hrest := ih f (i + 1) (by omega) (fun j hj => by
        have := hconf (j + 1) (by omega)
        simpa [Nat.add_assoc, Nat.add_comm 1 j] using this)
      calc uc_aux total reads oracle (f + 1) i
          = uc_aux total reads oracle f (i + 1) := by simp [uc_aux, h0]
        _ = uc_aux total reads oracle (f - p) (i + 1 + p) := hrest
        _ = uc_aux total reads oracle (f + 1 - (p + 1)) (i + (p + 1)) := by
            congr 1 <;> omega

/-- Claim C4, amended.  On each stale-ETag rejection the operation re-reads
the latest document, re-applies the increment to the fresh read and retries,
up to `cosmos_max_retries = 5` attempts; a non-conflict error is re-raised.
But when all five attempts are exhausted by conflicts the operation returns
silently — no failure is surfaced to the caller and the increment is lost. -/
theorem C4_amended (total : ℕ) (reads : ℕ → ℕ) (oracle : ℕ → WriteOutcome) :
    ((∀ j, j < cosmos_max_retries → oracle j = .conflict) →
      update_completed_slides total reads oracle = .silentExhaust) ∧
    (∀ k, k < cosmos_max_retries → (∀ j, j < k → oracle j = .conflict) →
      oracle k = .ok →
      update_completed_slides total reads oracle =
        (if reads k + 1 = total then .sentMsg (reads k + 1)
         else .returned (reads k + 1))) ∧
    (∀ k, k < cosmos_max_retries → (∀ j, j < k → oracle j = .conflict) →
      oracle k = .err →
      update_completed_slides total reads oracle = .raised) := by
  refine ⟨?_, ?_, ?_⟩
  · intro hconf
    have hx := uc_aux_skip total reads oracle cosmos_max_retries
      cosmos_max_retries 0 le_rfl (fun j hj => by simpa using hconf j hj)
    simpa [update_completed_slides] using hx
  · intro k hk hconf hok
    have hx := uc_aux_skip total reads oracle k cosmos_max_retries 0
      (le_of_lt hk) (fun j hj => by simpa using hconf j hj)
    have hpos : cosmos_max_retries - k = (cosmos_max_retries - k - 1) + 1 := by
      simp [cosmos_max_retries] at hk ⊢
      omega
    rw [update_completed_slides, hx, hpos]
    simp [uc_aux, hok]
  · intro k hk hconf herr
    have hx := uc_aux_skip total reads oracle k cosmos_max_retries 0
      (le_of_lt hk) (fun j hj => by simpa using hconf j hj)
    have hpos : cosmos_max_retries - k = (cosmos_max_retries - k - 1) + 1 := by
      simp [cosmos_max_retries] at hk ⊢
      omega
    rw [update_completed_slides, hx, hpos]
    simp [uc_aux, herr]

/-- Witness for C4_amended: three conflicts followed by a successful write of
the re-read counter, reaching the total and sending; and a variant where
attempt 2 raises. -/
theorem C4_amended_witness :
    update_completed_slides 4
      (fun i => i) (fun i => if i < 3 then .conflict else .ok) =
      LoopResult.sentMsg 4 ∧
    update_completed_slides 4
      (fun i => i) (fun i => if i < 2 then .conflict else .err) =
      LoopResult.raised := by
  constructor
  · have hx := (C4_amended 4 (fun i => i)
      (fun i => if i < 3 then .conflict else .ok)).2.1 3 (by decide)
      (fun j hj => by simp [hj]) (by simp)
    simpa using hx
  · exact (C4_amended 4 (fun i => i)
      (fun i => if i < 2 then .conflict else .err)).2.2 2 (by decide)
      (fun j hj => by simp [hj]) (by simp)

/-! ## Progress broadcaster (api/websocket/manager.py)

One subscription key (a ppt id channel) of `PowerPointProgressManager` is
modelled.  The extracted progress state (`_extract_progress_state`, a
field-by-field comparable dictionary) is abstracted to a number; `lookup` is
the result of the `get_powerpoint_record` read performed by the event
(`none` models a missing record, after which the code returns without
sending).  `connect` appends the socket, and `_send_current_state` stores
the extracted state and broadcasts it unconditionally to every connection of
the key (`_send_to_connections`).  A poll tick (`_check_powerpoint_updates`)
re-reads, diffs against `last_states` (with `{}` as default, which differs
from every extracted state — modelled by `none`), and broadcasts only on a
difference, storing the new state first. -/

structure MState where
  conns : List ℕ
  last_state : Option ℕ
deriving DecidableEq

/-- One message pushed on the channel: the snapshot payload, the connections
it was sent to, and whether it was the unconditional connect-time send. -/
structure Broadcast where
  payload : ℕ
  recipients : List ℕ
  from_connect : Bool
deriving DecidableEq

inductive MEvent
  | connect (c : ℕ) (lookup : Option ℕ)
  | poll (lookup : Option ℕ)
deriving DecidableEq

def mgr_step (sl : MState × List Broadcast) (e : MEvent) : MState × List Broadcast :=
  match e with
  | .connect c lookup =>
    let s2 : MState := { sl.1 with conns := sl.1.conns ++ [c] }
    match lookup with
    | none => (s2, sl.2)
    | some st =>
      ({ s2 with last_state := some st },
        sl.2 ++ [⟨st, s2.conns, true⟩])
  | .poll lookup =>
    match lookup with
    | none => sl
    | some st =>
      if some st ≠ sl.1.last_state then
        ({ sl.1 with last_state := some st },
          sl.2 ++ [⟨st, sl.1.conns, false⟩])
      else sl

def init_mgr : MState × List Broadcast := (⟨[], none⟩, [])

def run_mgr (trace : List MEvent) : MState × List Broadcast :=
  trace.foldl mgr_step init_mgr

/-! ### Claim C8 -/

/-- Claim C8, counterexample.  Subscriber 1 connects while the state is 7,
then subscriber 2 connects with the state unchanged: the connect-time
snapshot is broadcast to every connection of the key, so the channel carries
two consecutive identical snapshots and connection 1 receives the same
snapshot twice in a row. -/
theorem C8_counterexample :
    (run_mgr [.connect 1 (some 7), .connect 2 (some 7)]).2 =
      [⟨7, [1], true⟩, ⟨7, [1, 2], true⟩] ∧
    ((run_mgr [.connect 1 (some 7), .connect 2 (some 7)]).2.map
      (fun b => b.payload)) = [7, 7] ∧
    (run_mgr [.connect 1 (some 7), .connect 2 (some 7)]).2.get? 0 =
      some ⟨7, [1], true⟩ ∧
    (run_mgr [.connect 1 (some 7), .connect 2 (some 7)]).2.get? 1 =
      some ⟨7, [1, 2], true⟩ := by
  exact ⟨rfl, rfl, rfl, rfl⟩

/-- Adjacent-broadcast discipline: a repetition of the previous payload can
only be a connect-time snapshot, never a poll-driven update. -/
def poll_no_dup (a b : Broadcast) : Prop :=
  b.from_connect = true ∨ a.payload ≠ b.payload

/-- The inductive state of the broadcaster: the channel log satisfies the
adjacent discipline and `last_states` holds exactly the payload of the last
broadcast (or nothing before the first one). -/
def mgr_good (sl : MState × List Broadcast) : Prop :=
  List.Chain' poll_no_dup sl.2 ∧
  ((sl.2 = [] ∧ sl.1.last_state = none) ∨
    (∃ b, sl.2.getLast? = some b ∧ sl.1.last_state = some b.payload))

/-- Helper: the broadcaster discipline is preserved by every event. -/
theorem mgr_good_step (sl : MState × List Broadcast) (e : MEvent)
    (hg : mgr_good sl) : mgr_good (mgr_step sl e) := by
  obtain ⟨hch, hlink⟩ := hg
  cases e with
  | connect c lookup =>
    cases lookup with
    | none => exact ⟨hch, hlink⟩
    | some st =>
      constructor
      · rw [show (mgr_step sl (.connect c (some st))).2 =
            sl.2 ++ [⟨st, sl.1.conns ++ [c], true⟩] from rfl]
        rw [List.chain'_append]
        refine ⟨hch, List.chain'_singleton _, ?_⟩
        intro x hx y hy
        simp only [List.head?, Option.mem_def, Option.some.injEq] at hy
        rw [← hy]
        exact Or.inl rfl
      · right
        refine ⟨⟨st, sl.1.conns ++ [c], true⟩, ?_, rfl⟩
        rw [show (mgr_step sl (.connect c (some st))).2 =
            sl.2 ++ [⟨st, sl.1.conns ++ [c], true⟩] from rfl]
        simp
  | poll lookup =>
    cases lookup with
    | none => exact ⟨hch, hlink⟩
    | some st =>
      have hred : mgr_step sl (.poll (some st)) =
          if some st ≠ sl.1.last_state then
            ({ sl.1 with last_state := some st },
              sl.2 ++ [⟨st, sl.1.conns, false⟩])
          else sl := rfl
      rw [hred]
      by_cases hne : some st ≠ sl.1.last_state
      · rw [if_pos hne]
        constructor
        · rw [List.chain'_append]
          refine ⟨hch, List.chain'_singleton _, ?_⟩
          intro x hx y hy
          simp only [List.head?, Option.mem_def, Option.some.injEq] at hy
          rcases hlink with ⟨hnil, _⟩ | ⟨b, hb1, hb2⟩
          · rw [hnil] at hx
            simp at hx
          · rw [hb1] at hx
            simp only [Option.mem_def, Option.some.injEq] at hx
            rw [← hy, ← hx]
            refine Or.inr ?_
            intro hpay
            exact hne (by rw [hb2, hpay])
        · right
          exact ⟨⟨st, sl.1.conns, false⟩, by simp, rfl⟩
      · rw [if_neg hne]
        exact ⟨hch, hlink⟩

/-- Helper: the discipline holds after any event trace. -/
theorem mgr_good_run (trace : List MEvent) : mgr_good (run_mgr trace) := by
  have aux : ∀ (tr : List MEvent) (sl : MState × List Broadcast),
      mgr_good sl → mgr_good (tr.foldl mgr_step sl) := by
    intro tr
    induction tr with
    | nil => intro sl h; exact h
    | cons e es ih =>
      intro sl h
      exact ih (mgr_step sl e) (mgr_good_step sl e h)
  exact aux trace init_mgr ⟨List.chain'_nil, Or.inl ⟨rfl, rfl⟩⟩

/-- Claim C8, amended.  On each fixed-interval poll an update is sent only if
the extracted state differs from the stored snapshot, so a poll-driven
message never repeats the directly preceding payload; and each connect whose
record read succeeds appends exactly one unconditional snapshot — but that
snapshot is broadcast to every subscriber of the key (the new one included),
so the channel can carry two consecutive identical snapshots when a client
connects while the state is unchanged. -/
theorem C8_amended (trace : List MEvent) :
    List.Chain' poll_no_dup (run_mgr trace).2 ∧
    (∀ (pre : List MEvent) (c st : ℕ),
      (run_mgr (pre ++ [MEvent.connect c (some st)])).2 =
        (run_mgr pre).2 ++ [⟨st, (run_mgr pre).1.conns ++ [c], true⟩]) := by
  refine ⟨(mgr_good_run trace).1, ?_⟩
  intro pre c st
  rw [run_mgr, List.foldl_append]
  rfl

/-! ## Lock renewal (common/services/service_bus.py)

`ServiceBusService._listen_to_messages` with `use_lock_renewer` starts
`_renew_message_lock_periodically` as a concurrent task and, in a `finally`
block entered the moment `await handler_task` settles (return or raise),
cancels it and awaits the cancellation before completing or abandoning the
message; cancellation is therefore modelled as taking effect at the
handler-settlement instant `settle` (in seconds from handler start).  The
renewal loop body calls `renew_message_lock` first and sleeps 20 seconds in
its own `finally`, so call `i` happens at time `20 * i`; a renewal failure
whose message mentions settled, deleted or expired breaks the loop, and any
other failure is logged and the loop continues with the next interval.
`outs` lists the outcome each renewal call would have. -/

inductive RenewOutcome
  | ok
  | errSettled
  | errOther
deriving DecidableEq

def renew_aux (settle : ℕ) : List RenewOutcome → ℕ → List (ℕ × RenewOutcome)
  | [], _ => []
  | o :: rest, i =>
    if settle ≤ 20 * i then []
    else (20 * i, o) :: (if o = .errSettled then [] else renew_aux settle rest (i + 1))

/-- The renewal calls actually performed for a handler settling at time
`settle`, with their times and outcomes. -/
def renew_calls (settle : ℕ) (outs : List RenewOutcome) : List (ℕ × RenewOutcome) :=
  renew_aux settle outs 0

/-! ### Claim C9 -/

/-- Helper: every performed call happens strictly before the settlement. -/
theorem renew_aux_before (settle : ℕ) :
    ∀ (outs : List RenewOutcome) (i0 : ℕ) (p : ℕ × RenewOutcome),
      p ∈ renew_aux settle outs i0 → p.1 < settle := by
  intro outs
  induction outs with
  | nil => intro i0 p h; simp [renew_aux] at h
  | cons o rest ih =>
    intro i0 p h
    rw [renew_aux] at h
    by_cases hc : settle ≤ 20 * i0
    · rw [if_pos hc] at h; simp at h
    · rw [if_neg hc] at h
      rcases List.mem_cons.mp h with rfl | h2
      · omega
      · by_cases ho : o = RenewOutcome.errSettled
        · rw [if_pos ho] at h2; simp at h2
        · rw [if_neg ho] at h2
          exact ih (i0 + 1) p h2

/-- Helper: a call that fails with a settled/deleted/expired error is the
last call performed. -/
theorem renew_aux_stops (settle : ℕ) :
    ∀ (outs : List RenewOutcome) (i0 k t : ℕ),
      (renew_aux settle outs i0).get? k = some (t, .errSettled) →
      (renew_aux settle outs i0).length = k + 1 := by
  intro outs
  induction outs with
  | nil => intro i0 k t h; simp [renew_aux] at h
  | cons o rest ih =>
    intro i0 k t h
    rw [renew_aux] at h ⊢
    by_cases hc : settle ≤ 20 * i0
    · rw [if_pos hc] at h; simp at h
    · rw [if_neg hc] at h ⊢
      cases k with
      | zero =>
        simp only [List.get?] at h
        injection h with h
        have ho : o = RenewOutcome.errSettled := congrArg Prod.snd h
        rw [if_pos ho]
        rfl
      | succ k2 =>
        simp only [List.get?] at h
        by_cases ho : o = RenewOutcome.errSettled
        · rw [if_pos ho] at h; simp at h
        · rw [if_neg ho] at h ⊢
          have := ih (i0 + 1) k2 t h
          simp [this]

/-- Helper: after a renewal failure of any other kind the loop performs the
next call on schedule, provided the handler has not settled by then. -/
theorem renew_aux_continues (settle : ℕ) :
    ∀ (outs : List RenewOutcome) (i0 k t : ℕ) (o2 : RenewOutcome),
      (renew_aux settle outs i0).get? k = some (t, .errOther) →
      20 * (i0 + k + 1) < settle →
      outs.get? (k + 1) = some o2 →
      (renew_aux settle outs i0).get? (k + 1) = some (20 * (i0 + k + 1), o2) := by
  intro outs
  induction outs with
  | nil => intro i0 k t o2 h; simp [renew_aux] at h
  | cons o rest ih =>
    intro i0 k t o2 h hlt hnext
    rw [renew_aux] at h ⊢
    by_cases hc : settle ≤ 20 * i0
    · rw [if_pos hc] at h; simp at h
    · rw [if_neg hc] at h ⊢
      cases k with
      | zero =>
        simp only [List.get?] at h
        injection h with h
        have ho : o = RenewOutcome.errOther := congrArg Prod.snd h
        rw [ho]
        simp only [if_neg (by decide : ¬ RenewOutcome.errOther = RenewOutcome.errSettled)]
        cases rest with
        | nil => simp at hnext
        | cons o3 rest2 =>
          simp only [List.get?] at hnext
          injection hnext with hnext
          rw [renew_aux, if_neg (by omega : ¬ settle ≤ 20 * (i0 + 1))]
          simp [hnext, Nat.add_comm i0 1]
      | succ k2 =>
        by_cases ho : o = RenewOutcome.errSettled
        · rw [if_pos ho] at h; simp at h
        · rw [if_neg ho] at h ⊢
          simp only [List.get?] at h ⊢
          have := ih (i0 + 1) k2 t o2 h (by omega) (by simpa using hnext)
          rw [this]
          congr 2
          omega

/-- Claim C9, confirmed.  With the cancellation taking effect at handler
settlement (the listener cancels the renewal task in a `finally` as soon as
the handler settles, before settling the message), no renewal call is ever
performed at or after the settlement instant; a renewal failure naming a
settled, deleted or expired message is the loop's final call (it stops
silently); and after any other renewal failure the loop performs the next
call on schedule, not aborting the handler. -/
theorem C9_renewal (settle : ℕ) (outs : List RenewOutcome) :
    (∀ p ∈ renew_calls settle outs, p.1 < settle) ∧
    (∀ k t, (renew_calls settle outs).get? k = some (t, .errSettled) →
      (renew_calls settle outs).length = k + 1) ∧
    (∀ k t o2, (renew_calls settle outs).get? k = some (t, .errOther) →
      20 * (k + 1) < settle → outs.get? (k + 1) = some o2 →
      (renew_calls settle outs).get? (k + 1) = some (20 * (k + 1), o2)) := by
  refine ⟨?_, ?_, ?_⟩
  · intro p hp
    exact renew_aux_before settle outs 0 p hp
  · intro k t h
    exact renew_aux_stops settle outs 0 k t h
  · intro k t o2 h hlt hnext
    have := renew_aux_continues settle outs 0 k t o2 h (by simpa using hlt) hnext
    simpa using this

/-- Witness for C9_renewal: a handler settling at 50 seconds with outcomes
ok, transient failure, ok, ok performs calls at 0, 20 and 40 seconds only;
a settled-message failure at 20 seconds ends that loop after two calls. -/
theorem C9_renewal_witness :
    renew_calls 50 [RenewOutcome.ok, RenewOutcome.errOther, RenewOutcome.ok,
      RenewOutcome.ok] =
      [(0, RenewOutcome.ok), (20, RenewOutcome.errOther), (40, RenewOutcome.ok)] ∧
    (20 : ℕ) < 50 ∧
    (renew_calls 50 [RenewOutcome.ok, RenewOutcome.errOther, RenewOutcome.ok,
      RenewOutcome.ok]).get? 2 = some (40, RenewOutcome.ok) ∧
    (renew_calls 50 [RenewOutcome.ok, RenewOutcome.errSettled, RenewOutcome.ok]).length = 2 := by
  refine ⟨by decide, ?_, ?_, ?_⟩
  · exact (C9_renewal 50 [RenewOutcome.ok, RenewOutcome.errOther, RenewOutcome.ok,
      RenewOutcome.ok]).1 (20, RenewOutcome.errOther) (by decide)
  · exact (C9_renewal 50 [RenewOutcome.ok, RenewOutcome.errOther, RenewOutcome.ok,
      RenewOutcome.ok]).2.2 1 20 RenewOutcome.ok (by decide) (by decide) (by decide)
  · exact (C9_renewal 50 [RenewOutcome.ok, RenewOutcome.errSettled, RenewOutcome.ok]).2.1
      1 20 (by decide)
